import Mathlib

/-!
Shallow embedding of the SSE (Server-Sent Events) broadcaster of
`backend/services/sse_service.py` and of the SSE router
`backend/routers/sse.py`, together with proofs about its registry,
fan-out, session-loop and authentication behaviour.

Modelling conventions:
* `time.time()` values are `Nat` (the claims never need sub-second
  granularity); Python's `a - b > t` on floats agrees with Nat
  subtraction in every case the code reaches (when `a < b`, both sides
  make the comparison false).
* An `SSEConnection` object is identified by a connection id `cid`
  (Python removes connections from lists by object identity).
* An `asyncio.Queue` of SSE wire strings is a `List String` (FIFO:
  `put` appends at the tail, `get` pops the head).
* A Python `dict` is an association list with unique keys; insertion
  appends at the end, exactly as CPython preserves insertion order.
* `queue.put` on an unbounded queue is guarded by `try/except` in the
  source, so the embedding takes a failure oracle `fails : Nat → Bool`
  telling which connections' enqueues raise.
-/

set_option autoImplicit false

namespace GrowApp

/-- Model of `SSEConnection` from `sse_service.py`: user id, delivery queue,
creation time and activity clock, plus the identity `cid` standing for
Python object identity. -/
structure Conn where
  cid : Nat
  user_id : Nat
  queue : List String
  created_at : Nat
  last_activity : Nat
deriving DecidableEq

/-- Model of `SSEManager.connections : Dict[int, List[SSEConnection]]`. -/
abbrev Registry := List (Nat × List Conn)

/-- Dictionary lookup (`self.connections[user_id]` / `in` test). -/
def lookupR : Registry → Nat → Option (List Conn)
  | [], _ => none
  | (k, v) :: rest, uid => if k = uid then some v else lookupR rest uid

/-- Replace the value stored under a key (in-place dict update). -/
def setR (r : Registry) (uid : Nat) (v : List Conn) : Registry :=
  r.map (fun p => if p.1 = uid then (uid, v) else p)

/-- Python `del self.connections[user_id]`. -/
def eraseR (r : Registry) (uid : Nat) : Registry :=
  r.filter (fun p => p.1 ≠ uid)

/-- Python `list.remove(connection)`: drop the first element with the given
object identity, leave the list unchanged when it is absent (the
`ValueError` is caught by the caller). -/
def removeFirstCid : List Conn → Nat → List Conn
  | [], _ => []
  | c :: rest, cid => if c.cid = cid then rest else c :: removeFirstCid rest cid

/-- Model of `SSEManager.remove_connection`: remove the connection from the
subscriber's list; if the list becomes empty, delete the key; a missing
key or a missing connection is a silent no-op. -/
def remove_connection (r : Registry) (uid cid : Nat) : Registry :=
  match lookupR r uid with
  | none => r
  | some conns =>
    if cid ∈ conns.map Conn.cid then
      let conns' := removeFirstCid conns cid
      if conns' = [] then eraseR r uid else setR r uid conns'
    else r

/-- The manager: the registry plus the `cleanup_task` field.
`none` models `cleanup_task is None` (never started), `some true` a
running reaper task, `some false` a task object whose loop has exited
(the field is never reset to `None` in the source). -/
structure Manager where
  connections : Registry
  cleanup_task : Option Bool
deriving DecidableEq

/-- Registration effect of `SSEManager.create_event_generator`
(lines 140-156): allocate a fresh empty queue and connection, create the
subscriber's list when absent, append the connection, and start the
cleanup task only when `cleanup_task is None`. -/
def create_event_generator_register (m : Manager) (uid now cid : Nat) : Manager :=
  let connection : Conn :=
    { cid := cid, user_id := uid, queue := [], created_at := now, last_activity := now }
  let r :=
    match lookupR m.connections uid with
    | none => m.connections ++ [(uid, [connection])]
    | some conns => setR m.connections uid (conns ++ [connection])
  let task := if m.cleanup_task = none then some true else m.cleanup_task
  { connections := r, cleanup_task := task }

/-- Model of `SSEManager.add_connection`: the same registration effect, written
at its own code site in the source. -/
def add_connection (m : Manager) (uid now cid : Nat) : Manager :=
  let connection : Conn :=
    { cid := cid, user_id := uid, queue := [], created_at := now, last_activity := now }
  let r :=
    match lookupR m.connections uid with
    | none => m.connections ++ [(uid, [connection])]
    | some conns => setR m.connections uid (conns ++ [connection])
  let task := if m.cleanup_task = none then some true else m.cleanup_task
  { connections := r, cleanup_task := task }

/-! ### Event model and wire serialization -/

/-- Model of `PaymentStatusSSEEvent` (pydantic model) with its declaration-order
fields; `event.dict()` iterates them in exactly this order. -/
structure PaymentStatusSSEEvent where
  event_type : String := "payment_status"
  payment_status : String
  payment_method : String
  payment_intent_id : String
  subscription_id : Option String := none
  confirmation_code : Option String := none
  timestamp : Nat
  user_id : Nat
deriving DecidableEq

/-- Escaping performed by `json.dumps` for the characters that can occur in the
payload strings. -/
def jsonEscapeChar (c : Char) : String :=
  if c = '\\' then ("\\\\") else if c = '"' then ("\\\"") else String.singleton c

def jsonEscape (s : String) : String :=
  String.join (s.toList.map jsonEscapeChar)

def jsonStr (s : String) : String := "\"" ++ jsonEscape s ++ "\""

def jsonOptStr : Option String → String
  | none => "null"
  | some s => jsonStr s

/-- Model of `json.dumps(event.dict())` for a `PaymentStatusSSEEvent`. -/
def jsonOfEvent (e : PaymentStatusSSEEvent) : String :=
  "\x7b\"event_type\": " ++ jsonStr e.event_type ++
  ", \"payment_status\": " ++ jsonStr e.payment_status ++
  ", \"payment_method\": " ++ jsonStr e.payment_method ++
  ", \"payment_intent_id\": " ++ jsonStr e.payment_intent_id ++
  ", \"subscription_id\": " ++ jsonOptStr e.subscription_id ++
  ", \"confirmation_code\": " ++ jsonOptStr e.confirmation_code ++
  ", \"timestamp\": " ++ toString e.timestamp ++
  ", \"user_id\": " ++ toString e.user_id ++ "\x7d"

/-- Model of `SSEManager._send_event_to_connection`: it formats
`f"event: ...\ndata: ...\n\n"` before putting it on the queue. -/
def sseMessage (e : PaymentStatusSSEEvent) : String :=
  "event: payment_status\ndata: " ++ jsonOfEvent e ++ "\n\n"

/-- The initial `connected` event payload of `create_event_generator`. -/
def jsonConnected (uid t0 : Nat) : String :=
  "\x7b\"user_id\": " ++ toString uid ++ ", \"timestamp\": " ++ toString t0 ++ "\x7d"

def connectedMsg (uid t0 : Nat) : String :=
  "event: connected\ndata: " ++ jsonConnected uid t0 ++ "\n\n"

/-- The keepalive message yielded on `asyncio.TimeoutError`. -/
def pingMsg : String := "event: ping\ndata: \x7b\x7d\n\n"

/-- Successful delivery to one connection: `_send_event_to_connection`
puts the message on the queue, then the broadcast loop stamps
`last_activity = time.time()`. -/
def sendStep (msg : String) (now : Nat) (c : Conn) : Conn :=
  { c with queue := c.queue ++ [msg], last_activity := now }

/-- Model of `SSEManager.broadcast_payment_status`: missing subscriber is a
no-op; otherwise build the event once, enqueue it on every connection
of that subscriber (a failing enqueue leaves that connection untouched
and records it as stale), and only after the loop remove each stale
connection through `remove_connection`. -/
def broadcast_payment_status (m : Manager) (now uid : Nat)
    (ps pm pintent : String) (sid cc : Option String) (fails : Nat → Bool) : Manager :=
  match lookupR m.connections uid with
  | none => m
  | some conns =>
    let ev : PaymentStatusSSEEvent :=
      { payment_status := ps, payment_method := pm, payment_intent_id := pintent,
        subscription_id := sid, confirmation_code := cc, timestamp := now, user_id := uid }
    let msg := sseMessage ev
    let conns' := conns.map (fun c => if fails c.cid then c else sendStep msg now c)
    let staleList := conns.filter (fun c => fails c.cid)
    let r' := setR m.connections uid conns'
    { m with connections :=
        staleList.foldl (fun acc c => remove_connection acc uid c.cid) r' }

/-! ### Stale-session reaper -/

/-- Constant `stale_threshold = 300  # 5 minutes`. -/
def stale_threshold : Nat := 300

/-- One subscriber's share of a `_cleanup_stale_connections` cycle:
collect the stale connections first, then remove each one. -/
def sweepUser (r : Registry) (uid now : Nat) : Registry :=
  match lookupR r uid with
  | none => r
  | some conns =>
    let staleList := conns.filter (fun c => decide (stale_threshold < now - c.last_activity))
    staleList.foldl (fun acc c => remove_connection acc uid c.cid) r

/-- One full cycle of `_cleanup_stale_connections`: sweep every key of
the snapshot `list(self.connections.keys())`; if the registry is empty
afterwards the task breaks out of its loop and finishes — `cleanup_task`
now holds a completed task, modelled as `some false`. -/
def sweepCycle (m : Manager) (now : Nat) : Manager :=
  let keys := m.connections.map (fun p => p.1)
  let r' := keys.foldl (fun acc uid => sweepUser acc uid now) m.connections
  if r' = [] then { connections := r', cleanup_task := some false }
  else { m with connections := r' }

/-! ### Session generator loop -/

/-- The Session's view of one run of the `event_generator` loop: the
shared `asyncio.Queue` plus the stream of yielded wire strings. -/
structure GenState where
  queue : List String
  out : List String
deriving DecidableEq

/-- One scheduler event against a streaming Session:
`enqueue` is a producer's `queue.put`, `consume` a `queue.get` that
returns within the timeout (only possible when the queue is nonempty),
`timeout` the `asyncio.TimeoutError` branch (only fires when the queue
stayed empty for the 30s keepalive interval). -/
inductive GenInput where
  | enqueue (msg : String)
  | consume
  | timeout
deriving DecidableEq

/-- Constant `timeout=30.0` in `asyncio.wait_for`. -/
def keepalive_timeout : Nat := 30

def genStep (s : GenState) : GenInput → GenState
  | .enqueue msg => { s with queue := s.queue ++ [msg] }
  | .consume =>
    match s.queue with
    | [] => s
    | msg :: rest => { queue := rest, out := s.out ++ [msg] }
  | .timeout =>
    if s.queue = [] then { s with out := s.out ++ [pingMsg] } else s

/-- Run the generator from its start: the `connected` event is yielded
before the loop is entered, on an empty queue. -/
def genRun (uid t0 : Nat) (inputs : List GenInput) : GenState :=
  inputs.foldl genStep { queue := [], out := [connectedMsg uid t0] }

/-- The messages enqueued by producers, in order. -/
def enqueuedMsgs (inputs : List GenInput) : List String :=
  inputs.filterMap (fun i => match i with | .enqueue msg => some msg | _ => none)

/-! ### Session loop against the live registry -/

/-- Find a connection object inside the registry. -/
def getConn (r : Registry) (uid cid : Nat) : Option Conn :=
  (lookupR r uid).bind (fun l => l.find? (fun c => c.cid == cid))

/-- Update one connection object in place. -/
def updateConn (r : Registry) (uid cid : Nat) (f : Conn → Conn) : Registry :=
  r.map (fun p =>
    if p.1 = uid then (p.1, p.2.map (fun c => if c.cid == cid then f c else c)) else p)

/-- What one iteration of the `while True` loop in `event_generator`
yields. -/
inductive LoopOutcome where
  | yielded (msg : String)
  | ping
deriving DecidableEq

/-- One iteration of the generator loop, acting on the shared state:
`asyncio.wait_for(queue.get(), timeout=30.0)` returns the head of the
queue when one is available, else the `TimeoutError` branch yields the
keepalive ping. The loop body reads no clock and writes no connection
field other than popping the queue. -/
def session_loop_iteration (m : Manager) (uid cid : Nat) : Manager × LoopOutcome :=
  match getConn m.connections uid cid with
  | some c =>
    match c.queue with
    | msg :: rest =>
      ({ m with connections :=
          updateConn m.connections uid cid (fun x => { x with queue := rest }) },
       .yielded msg)
    | [] => (m, .ping)
  | none => (m, .ping)

/-! ### Generator termination and cleanup -/

/-- How the `event_generator` coroutine ends: the loop is exited by
`asyncio.CancelledError` (client disconnect), by some other exception,
or by the generator being closed. -/
inductive ExitPath where
  | normal
  | cancelled
  | error
deriving DecidableEq

/-- The `finally` block of `event_generator`: when the subscriber still
has an entry, remove this connection via `remove_connection` (itself
wrapped in `try/except`). -/
def generator_finally (m : Manager) (uid cid : Nat) : Manager :=
  match lookupR m.connections uid with
  | none => m
  | some _ => { m with connections := remove_connection m.connections uid cid }

/-- Generator termination: `except asyncio.CancelledError` and
`except Exception` both swallow the exception after logging, and the
`finally` block runs on every one of the three exit paths. -/
def generator_exit (m : Manager) (uid cid : Nat) : ExitPath → Manager
  | .normal => generator_finally m uid cid
  | .cancelled => generator_finally m uid cid
  | .error => generator_finally m uid cid

/-! ### Connection counting -/

/-- Model of `sum(len(connections) for connections in self.connections.values())`. -/
def totalConnections (m : Manager) : Nat :=
  (m.connections.map (fun p => p.2.length)).sum

/-- Model of `SSEManager.get_connection_count(user_id=None)`: the source tests
`if user_id:`, so `None` and `0` are both falsy and select the total. -/
def get_connection_count (m : Manager) (user_id : Option Nat) : Nat :=
  match user_id with
  | some uid =>
    if uid = 0 then totalConnections m
    else ((lookupR m.connections uid).getD []).length
  | none => totalConnections m

/-! ### Reaper lifecycle steps (for the restart-defect claim) -/

/-- A step of the manager's lifecycle relevant to the reaper defect:
a new stream registration, or one reaper cycle at some wall-clock time.
A `sweep` only executes while the cleanup task is actually running
(`some true`); a finished task (`some false`) runs no more cycles. -/
inductive MStep where
  | register (uid now cid : Nat)
  | sweep (now : Nat)
deriving DecidableEq

def applyMStep (m : Manager) : MStep → Manager
  | .register uid now cid => create_event_generator_register m uid now cid
  | .sweep now => if m.cleanup_task = some true then sweepCycle m now else m

def applySteps (m : Manager) (steps : List MStep) : Manager :=
  steps.foldl applyMStep m

/-! ### Router: token validation and the stream endpoint -/

/-- Outcome of `jwt.decode`: the two exception classes the source
handles, or a decoded payload whose `sub` claim may be absent. -/
inductive DecodeResult where
  | expired
  | invalid
  | payload (sub : Option String)
deriving DecidableEq

/-- The fields of the ORM `User` that the router reads. -/
structure UserRec where
  id : Nat
  is_active : Bool
deriving DecidableEq

/-- An `HTTPException`, by status code and detail. -/
structure HTTPError where
  status_code : Nat
  detail : String
deriving DecidableEq

def credentials_exception : HTTPError :=
  { status_code := 401, detail := "Could not validate credentials" }

/-- Model of `get_current_active_user_from_token` of `routers/sse.py`:
expired token → 401 "Token expired"; invalid token or missing `sub` →
the 401 credentials exception; unknown user → the 401 credentials
exception; inactive user → 400 "Inactive user". -/
def get_current_active_user_from_token (decode : String → DecodeResult)
    (get_user : String → Option UserRec) (token : String) : Except HTTPError UserRec :=
  match decode token with
  | .expired => .error { status_code := 401, detail := "Token expired" }
  | .invalid => .error credentials_exception
  | .payload none => .error credentials_exception
  | .payload (some username) =>
    match get_user username with
    | none => .error credentials_exception
    | some user =>
      if user.is_active then .ok user
      else .error { status_code := 400, detail := "Inactive user" }

/-- Model of `payment_status_stream`: authenticate first; only on success call
`sse_manager.create_event_generator(current_user.id)`, which registers
the Session. An `HTTPException` raised by authentication is re-raised
before the registry is ever touched. Returns the manager state after
the request together with the response. -/
def payment_status_stream (decode : String → DecodeResult)
    (get_user : String → Option UserRec) (token : String)
    (m : Manager) (now cid : Nat) : Manager × Except HTTPError Nat :=
  match get_current_active_user_from_token decode get_user token with
  | .error e => (m, .error e)
  | .ok user => (create_event_generator_register m user.id now cid, .ok user.id)

/-! ## Registry lemmas -/

@[simp] theorem lookupR_nil (uid : Nat) : lookupR [] uid = none := rfl

@[simp] theorem lookupR_cons (k : Nat) (v : List Conn) (rest : Registry) (uid : Nat) :
    lookupR ((k, v) :: rest) uid = if k = uid then some v else lookupR rest uid := rfl

@[simp] theorem setR_nil (uid : Nat) (v : List Conn) : setR [] uid v = [] := rfl

theorem setR_cons (k : Nat) (w : List Conn) (rest : Registry) (uid : Nat) (v : List Conn) :
    setR ((k, w) :: rest) uid v =
      (if k = uid then (uid, v) else (k, w)) :: setR rest uid v := rfl

@[simp] theorem setR_cons_self (k : Nat) (w : List Conn) (rest : Registry) (v : List Conn) :
    setR ((k, w) :: rest) k v = (k, v) :: setR rest k v := by
  simp [setR_cons]

theorem setR_cons_ne (k : Nat) (w : List Conn) (rest : Registry) {uid : Nat}
    (h : k ≠ uid) (v : List Conn) :
    setR ((k, w) :: rest) uid v = (k, w) :: setR rest uid v := by
  simp [setR_cons, h]

@[simp] theorem eraseR_nil (uid : Nat) : eraseR [] uid = [] := rfl

theorem eraseR_cons (k : Nat) (w : List Conn) (rest : Registry) (uid : Nat) :
    eraseR ((k, w) :: rest) uid =
      if k = uid then eraseR rest uid else (k, w) :: eraseR rest uid := by
  by_cases h : k = uid <;> simp [eraseR, List.filter, h]

theorem lookupR_mem {r : Registry} {uid : Nat} {l : List Conn}
    (h : lookupR r uid = some l) : (uid, l) ∈ r := by
  induction r with
  | nil => simp at h
  | cons p rest ih =>
    obtain ⟨k, v⟩ := p
    by_cases hk : k = uid
    · subst hk
      simp at h
      simp [h]
    · simp [hk] at h
      exact List.mem_cons_of_mem _ (ih h)

theorem lookupR_setR_self {r : Registry} {uid : Nat} {l : List Conn}
    (h : lookupR r uid = some l) (v : List Conn) :
    lookupR (setR r uid v) uid = some v := by
  induction r with
  | nil => simp at h
  | cons p rest ih =>
    obtain ⟨k, v'⟩ := p
    by_cases hk : k = uid
    · subst hk
      simp
    · simp [hk] at h
      simp [setR_cons_ne _ _ _ hk, hk]
      exact ih h

theorem lookupR_setR_ne {r : Registry} {uid uid' : Nat} (hne : uid ≠ uid')
    (v : List Conn) : lookupR (setR r uid' v) uid = lookupR r uid := by
  induction r with
  | nil => simp
  | cons p rest ih =>
    obtain ⟨k, v'⟩ := p
    by_cases hk : k = uid'
    · subst hk
      simp [Ne.symm hne, fun h => hne (Eq.symm h)]
      exact ih
    · rw [setR_cons_ne _ _ _ hk]
      by_cases hu : k = uid
      · simp [hu]
      · simp [hu]
        exact ih

theorem lookupR_eraseR_self (r : Registry) (uid : Nat) :
    lookupR (eraseR r uid) uid = none := by
  induction r with
  | nil => simp
  | cons p rest ih =>
    obtain ⟨k, v⟩ := p
    rw [eraseR_cons]
    by_cases hk : k = uid
    · simp [hk, ih]
    · simp [hk, ih]

theorem lookupR_append_left {r : Registry} {uid : Nat} {l : List Conn}
    (h : lookupR r uid = some l) (r2 : Registry) :
    lookupR (r ++ r2) uid = some l := by
  induction r with
  | nil => simp at h
  | cons p rest ih =>
    obtain ⟨k, v⟩ := p
    by_cases hk : k = uid
    · subst hk
      simp at h ⊢
      exact h
    · simp [hk] at h ⊢
      exact ih h

theorem mem_setR_iff_ne {r : Registry} {uid : Nat} {v : List Conn} {p : Nat × List Conn}
    (hne : p.1 ≠ uid) : p ∈ setR r uid v ↔ p ∈ r := by
  constructor
  · intro hp
    obtain ⟨q, hq, hfq⟩ := List.mem_map.mp hp
    by_cases hq1 : q.1 = uid
    · rw [if_pos hq1] at hfq
      exact absurd (by rw [← hfq]) hne
    · rw [if_neg hq1] at hfq
      exact hfq ▸ hq
  · intro hp
    have : (if p.1 = uid then (uid, v) else p) = p := if_neg hne
    exact this ▸ List.mem_map_of_mem _ hp

theorem mem_eraseR_iff_ne {r : Registry} {uid : Nat} {p : Nat × List Conn}
    (hne : p.1 ≠ uid) : p ∈ eraseR r uid ↔ p ∈ r := by
  simp [eraseR, List.mem_filter, hne]

theorem mem_remove_connection_iff_ne {r : Registry} {uid cid : Nat} {p : Nat × List Conn}
    (hne : p.1 ≠ uid) : p ∈ remove_connection r uid cid ↔ p ∈ r := by
  unfold remove_connection
  cases h : lookupR r uid with
  | none => exact Iff.rfl
  | some conns =>
    by_cases hmem : cid ∈ conns.map Conn.cid
    · simp only [hmem, if_true]
      by_cases hemp : removeFirstCid conns cid = []
      · simp only [hemp, if_pos rfl]
        exact mem_eraseR_iff_ne hne
      · simp only [if_neg hemp]
        exact mem_setR_iff_ne hne
    · simp only [hmem, if_false]

theorem lookupR_eraseR_ne {r : Registry} {uid uid' : Nat} (hne : uid' ≠ uid) :
    lookupR (eraseR r uid) uid' = lookupR r uid' := by
  induction r with
  | nil => simp
  | cons p rest ih =>
    obtain ⟨k, v⟩ := p
    rw [eraseR_cons]
    by_cases hk : k = uid
    · subst hk
      rw [if_pos rfl, lookupR_cons, if_neg (fun hh => hne (Eq.symm hh))]
      exact ih
    · rw [if_neg hk, lookupR_cons, lookupR_cons]
      by_cases hu : k = uid'
      · simp [hu]
      · simp only [hu, if_false]
        exact ih

theorem lookupR_remove_connection_ne {r : Registry} {uid uid' cid : Nat}
    (hne : uid' ≠ uid) : lookupR (remove_connection r uid cid) uid' = lookupR r uid' := by
  unfold remove_connection
  cases h : lookupR r uid with
  | none => rfl
  | some conns =>
    by_cases hmem : cid ∈ conns.map Conn.cid
    · simp only [hmem, if_true]
      by_cases hemp : removeFirstCid conns cid = []
      · simp only [hemp, if_pos rfl]
        exact lookupR_eraseR_ne hne
      · simp only [if_neg hemp]
        exact lookupR_setR_ne hne _
    · simp only [hmem, if_false]

theorem remove_connection_lookup_none {r : Registry} {uid : Nat} (cid : Nat)
    (h : lookupR r uid = none) : remove_connection r uid cid = r := by
  unfold remove_connection
  rw [h]

theorem foldl_remove_lookup_none {uid : Nat} (cids : List Nat) (r : Registry)
    (h : lookupR r uid = none) :
    cids.foldl (fun acc c => remove_connection acc uid c) r = r := by
  induction cids with
  | nil => rfl
  | cons c rest ih =>
    simp only [List.foldl_cons, remove_connection_lookup_none c h]
    exact ih

/-! ## Removal lemmas -/

theorem removeFirstCid_of_not_mem {l : List Conn} {cid : Nat}
    (h : cid ∉ l.map Conn.cid) : removeFirstCid l cid = l := by
  induction l with
  | nil => rfl
  | cons c t ih =>
    simp only [List.map_cons, List.mem_cons, not_or] at h
    rw [removeFirstCid, if_neg (fun hh => h.1 (Eq.symm hh)), ih h.2]

theorem not_mem_removeFirstCid_of_count_le_one {l : List Conn} {cid : Nat}
    (h : (l.map Conn.cid).count cid ≤ 1) :
    cid ∉ (removeFirstCid l cid).map Conn.cid := by
  induction l with
  | nil => simp [removeFirstCid]
  | cons c t ih =>
    by_cases hc : c.cid = cid
    · rw [removeFirstCid, if_pos hc]
      rw [List.map_cons, hc, List.count_cons_self] at h
      exact List.count_eq_zero.mp (by omega)
    · rw [removeFirstCid, if_neg hc]
      have h' : (t.map Conn.cid).count cid ≤ 1 := by
        rw [List.map_cons, List.count_cons] at h
        split at h <;> omega
      simp only [List.map_cons, List.mem_cons, not_or]
      exact ⟨fun hh => hc (Eq.symm hh), ih h'⟩

/-- All the removals `remove(connection)` performed for one stale list,
at the level of a single subscriber's connection list. -/
def removeAllCids (l : List Conn) (cids : List Nat) : List Conn :=
  cids.foldl removeFirstCid l

@[simp] theorem removeAllCids_nil_right (l : List Conn) : removeAllCids l [] = l := rfl

theorem removeAllCids_cons_right (l : List Conn) (x : Nat) (cids : List Nat) :
    removeAllCids l (x :: cids) = removeAllCids (removeFirstCid l x) cids := rfl

@[simp] theorem removeAllCids_nil_left (cids : List Nat) : removeAllCids [] cids = [] := by
  induction cids with
  | nil => rfl
  | cons x rest ih => rw [removeAllCids_cons_right, removeFirstCid]; exact ih

theorem removeAllCids_cons_not_mem {c : Conn} {cids : List Nat}
    (h : ∀ x ∈ cids, x ≠ c.cid) (t : List Conn) :
    removeAllCids (c :: t) cids = c :: removeAllCids t cids := by
  induction cids generalizing t with
  | nil => rfl
  | cons x rest ih =>
    rw [removeAllCids_cons_right, removeFirstCid,
      if_neg (fun hh => h x (List.mem_cons_self x rest) (Eq.symm hh)),
      removeAllCids_cons_right]
    exact ih (fun y hy => h y (List.mem_cons_of_mem x hy)) (removeFirstCid t x)

theorem removeAllCids_filter (f : Conn → Bool) :
    ∀ (l : List Conn), (l.map Conn.cid).Nodup →
    removeAllCids l ((l.filter f).map Conn.cid) = l.filter (fun c => !(f c)) := by
  intro l
  induction l with
  | nil => simp
  | cons c t ih =>
    intro hnd
    simp only [List.map_cons, List.nodup_cons] at hnd
    obtain ⟨hcmem, hnd'⟩ := hnd
    by_cases hf : f c
    · rw [List.filter_cons_of_pos hf, List.map_cons, removeAllCids_cons_right,
        removeFirstCid, if_pos rfl, List.filter_cons_of_neg (by simp [hf])]
      exact ih hnd'
    · have hfalse : f c = false := by simp [hf]
      rw [List.filter_cons_of_neg (by simp [hfalse]),
        List.filter_cons_of_pos (by simp [hfalse])]
      rw [removeAllCids_cons_not_mem]
      · rw [ih hnd']
      · intro x hx
        obtain ⟨y, hy, hxy⟩ := List.mem_map.mp hx
        intro hceq
        refine hcmem ?_
        rw [← hceq, ← hxy]
        exact List.mem_map_of_mem Conn.cid (List.mem_of_mem_filter hy)

/-! ## The fan-out removal fold -/

theorem lookupR_foldl_remove {uid : Nat} :
    ∀ (cids : List Nat) (r : Registry) (l : List Conn),
    lookupR r uid = some l → l ≠ [] →
    lookupR (cids.foldl (fun acc c => remove_connection acc uid c) r) uid =
      if removeAllCids l cids = [] then none else some (removeAllCids l cids) := by
  intro cids
  induction cids with
  | nil =>
    intro r l h hne
    simp only [List.foldl_nil, removeAllCids_nil_right, h]
    rw [if_neg hne]
  | cons x rest ih =>
    intro r l h hne
    rw [List.foldl_cons]
    by_cases hmem : x ∈ l.map Conn.cid
    · by_cases hemp : removeFirstCid l x = []
      · have hrw : remove_connection r uid x = eraseR r uid := by
          unfold remove_connection
          rw [h]
          simp [hmem, hemp]
        rw [hrw, foldl_remove_lookup_none rest _ (lookupR_eraseR_self r uid),
          lookupR_eraseR_self, removeAllCids_cons_right, hemp, removeAllCids_nil_left]
        simp
      · have hrw : remove_connection r uid x = setR r uid (removeFirstCid l x) := by
          unfold remove_connection
          rw [h]
          simp [hmem, hemp]
        rw [hrw, removeAllCids_cons_right]
        exact ih _ _ (lookupR_setR_self h _) hemp
    · have hrw : remove_connection r uid x = r := by
        unfold remove_connection
        rw [h]
        simp [hmem]
      rw [hrw, removeAllCids_cons_right, removeFirstCid_of_not_mem hmem]
      exact ih r l h hne

theorem mem_foldl_remove_iff_ne {uid : Nat} {p : Nat × List Conn} (hne : p.1 ≠ uid) :
    ∀ (cids : List Nat) (r : Registry),
    p ∈ cids.foldl (fun acc c => remove_connection acc uid c) r ↔ p ∈ r := by
  intro cids
  induction cids with
  | nil => intro r; exact Iff.rfl
  | cons x rest ih =>
    intro r
    rw [List.foldl_cons]
    exact (ih _).trans (mem_remove_connection_iff_ne hne)

theorem lookupR_foldl_remove_ne {uid uid' : Nat} (hne : uid' ≠ uid) :
    ∀ (cids : List Nat) (r : Registry),
    lookupR (cids.foldl (fun acc c => remove_connection acc uid c) r) uid' = lookupR r uid' := by
  intro cids
  induction cids with
  | nil => intro r; rfl
  | cons x rest ih =>
    intro r
    rw [List.foldl_cons, ih, lookupR_remove_connection_ne hne]

/-! ## Broadcast fan-out in closed form -/

theorem map_cid_sendStep (conns : List Conn) (msg : String) (now : Nat) (fails : Nat → Bool) :
    (conns.map (fun c => if fails c.cid then c else sendStep msg now c)).map Conn.cid
      = conns.map Conn.cid := by
  induction conns with
  | nil => rfl
  | cons c t ih =>
    simp only [List.map_cons, ih]
    cases hf : fails c.cid <;> simp [hf, sendStep]

theorem stale_cids_eq (conns : List Conn) (msg : String) (now : Nat) (fails : Nat → Bool) :
    ((conns.map (fun c => if fails c.cid then c else sendStep msg now c)).filter
        (fun c => fails c.cid)).map Conn.cid
      = (conns.filter (fun c => fails c.cid)).map Conn.cid := by
  induction conns with
  | nil => rfl
  | cons c t ih =>
    cases hf : fails c.cid <;>
      simp [List.filter_cons, hf, sendStep] at ih ⊢ <;> exact ih

theorem survivors_eq (conns : List Conn) (msg : String) (now : Nat) (fails : Nat → Bool) :
    (conns.map (fun c => if fails c.cid then c else sendStep msg now c)).filter
        (fun c => !(fails c.cid))
      = (conns.filter (fun c => !(fails c.cid))).map (sendStep msg now) := by
  induction conns with
  | nil => rfl
  | cons c t ih =>
    cases hf : fails c.cid <;>
      simp [List.filter_cons, hf, sendStep] at ih ⊢ <;> exact ih

/-- The registry produced by `broadcast_payment_status`, in closed form:
the subscriber's entry becomes the non-failing connections in their
original order, each with the serialized event appended to its queue
and `last_activity` stamped to `now`; the entry disappears when every
connection failed; every other subscriber's entry is untouched; the
cleanup task is untouched. -/
theorem broadcast_spec (m : Manager) (now uid : Nat)
    (ps pm pintent : String) (sid cc : Option String) (fails : Nat → Bool)
    (conns : List Conn) (h : lookupR m.connections uid = some conns)
    (hne : conns ≠ []) (hnd : (conns.map Conn.cid).Nodup) :
    let ev : PaymentStatusSSEEvent :=
      { payment_status := ps, payment_method := pm, payment_intent_id := pintent,
        subscription_id := sid, confirmation_code := cc, timestamp := now, user_id := uid }
    let msg := sseMessage ev
    let survivors := (conns.filter (fun c => !(fails c.cid))).map (sendStep msg now)
    let m' := broadcast_payment_status m now uid ps pm pintent sid cc fails
    lookupR m'.connections uid = (if survivors = [] then none else some survivors) ∧
    (∀ p : Nat × List Conn, p.1 ≠ uid → (p ∈ m'.connections ↔ p ∈ m.connections)) ∧
    (∀ uid', uid' ≠ uid → lookupR m'.connections uid' = lookupR m.connections uid') ∧
    m'.cleanup_task = m.cleanup_task := by
  intro ev msg survivors m'
  have hconn : m'.connections =
      (conns.filter (fun c => fails c.cid)).foldl
        (fun acc c => remove_connection acc uid c.cid)
        (setR m.connections uid
          (conns.map (fun c => if fails c.cid then c else sendStep msg now c))) := by
    show (broadcast_payment_status m now uid ps pm pintent sid cc fails).connections = _
    unfold broadcast_payment_status
    rw [h]
  have htask : m'.cleanup_task = m.cleanup_task := by
    show (broadcast_payment_status m now uid ps pm pintent sid cc fails).cleanup_task = _
    unfold broadcast_payment_status
    rw [h]
  set conns' := conns.map (fun c => if fails c.cid then c else sendStep msg now c) with hconns'
  have hfold : ∀ (r : Registry),
      (conns.filter (fun c => fails c.cid)).foldl
        (fun acc c => remove_connection acc uid c.cid) r =
      ((conns.filter (fun c => fails c.cid)).map Conn.cid).foldl
        (fun acc x => remove_connection acc uid x) r := by
    intro r
    rw [List.foldl_map]
  have hlook : lookupR (setR m.connections uid conns') uid = some conns' :=
    lookupR_setR_self h _
  have hne' : conns' ≠ [] := by
    intro hc
    exact hne (List.map_eq_nil_iff.mp hc)
  have hnd' : (conns'.map Conn.cid).Nodup := by
    rw [hconns', map_cid_sendStep]
    exact hnd
  have hstale : (conns.filter (fun c => fails c.cid)).map Conn.cid
      = (conns'.filter (fun c => fails c.cid)).map Conn.cid := by
    rw [hconns', stale_cids_eq]
  have hsurv : conns'.filter (fun c => !(fails c.cid)) = survivors := by
    rw [hconns', survivors_eq]
  refine ⟨?_, ?_, ?_, htask⟩
  · rw [hconn, hfold, lookupR_foldl_remove _ _ conns' hlook hne', hstale,
      removeAllCids_filter _ conns' hnd', hsurv]
  · intro p hp
    rw [hconn, hfold]
    exact (mem_foldl_remove_iff_ne hp _ _).trans (mem_setR_iff_ne hp)
  · intro uid' hu
    rw [hconn, hfold, lookupR_foldl_remove_ne hu, lookupR_setR_ne hu]

/-! ## Claim C1: exactly-once fan-out to the target subscriber -/

/-- C1. For every subscriber with registered connections,
`broadcast_payment_status` appends the serialized `payment_status`
event exactly once to each of that subscriber's connection queues
(`queue ++ [msg]`), leaves every other subscriber's entry untouched,
and the enqueued message is the SSE wire string
`event: payment_status` / `data: <json>` terminated by a blank line,
whose JSON payload carries the given payment_status, payment_method,
payment_intent_id, confirmation_code, the subscriber's user_id and the
timestamp. -/
theorem broadcast_payment_status_exactly_once (m : Manager) (now uid : Nat)
    (ps pm pintent : String) (sid cc : Option String)
    (conns : List Conn) (h : lookupR m.connections uid = some conns) :
    let ev : PaymentStatusSSEEvent :=
      { payment_status := ps, payment_method := pm, payment_intent_id := pintent,
        subscription_id := sid, confirmation_code := cc, timestamp := now, user_id := uid }
    let msg := sseMessage ev
    let m' := broadcast_payment_status m now uid ps pm pintent sid cc (fun _ => false)
    lookupR m'.connections uid =
      some (conns.map (fun c => { c with queue := c.queue ++ [msg], last_activity := now })) ∧
    (∀ uid', uid' ≠ uid → lookupR m'.connections uid' = lookupR m.connections uid') ∧
    (∀ p : Nat × List Conn, p.1 ≠ uid → (p ∈ m'.connections ↔ p ∈ m.connections)) ∧
    msg = "event: payment_status\ndata: " ++ jsonOfEvent ev ++ "\n\n" := by
  intro ev msg m'
  have hconn : m'.connections = setR m.connections uid (conns.map (sendStep msg now)) := by
    show (broadcast_payment_status m now uid ps pm pintent sid cc (fun _ => false)).connections = _
    unfold broadcast_payment_status
    rw [h]
    simp
  refine ⟨?_, ?_, ?_, rfl⟩
  · rw [hconn]
    exact lookupR_setR_self h _
  · intro uid' hu
    rw [hconn]
    exact lookupR_setR_ne hu _
  · intro p hp
    rw [hconn]
    exact mem_setR_iff_ne hp

/-- Witness fixtures: one open Session for subscriber 42 (Scenario A). -/
def confirmationA : String := "ABCD1234EFGH"

def connA : Conn :=
  { cid := 0, user_id := 42, queue := [], created_at := 5, last_activity := 5 }

def managerA : Manager :=
  { connections := [(42, [connA])], cleanup_task := some true }

def eventA : PaymentStatusSSEEvent :=
  { payment_status := "paid", payment_method := "stripe", payment_intent_id := "pi_123",
    subscription_id := none, confirmation_code := some confirmationA,
    timestamp := 1000, user_id := 42 }

theorem broadcast_payment_status_exactly_once_witness :
    lookupR ((broadcast_payment_status managerA 1000 42 "paid" "stripe" "pi_123" none
        (some confirmationA) (fun _ => false)).connections) 42
      = some ([connA].map (fun c =>
          { c with queue := c.queue ++ [sseMessage eventA], last_activity := 1000 })) :=
  (broadcast_payment_status_exactly_once managerA 1000 42 "paid" "stripe" "pi_123" none
    (some confirmationA) [connA] rfl).1

/-! ## Claim C2: per-Session failure isolation during fan-out -/

/-- C2. With an arbitrary set of failing enqueues, every non-failing
connection of the subscriber still receives the event (its updated
record, message appended, is registered afterwards), every failing
connection has been removed from the registry by the post-loop
`remove_connection` pass, and other subscribers are untouched; the
function is total, so no exception reaches the caller. -/
theorem broadcast_payment_status_failure_isolation (m : Manager) (now uid : Nat)
    (ps pm pintent : String) (sid cc : Option String) (fails : Nat → Bool)
    (conns : List Conn) (h : lookupR m.connections uid = some conns)
    (hne : conns ≠ []) (hnd : (conns.map Conn.cid).Nodup) :
    let ev : PaymentStatusSSEEvent :=
      { payment_status := ps, payment_method := pm, payment_intent_id := pintent,
        subscription_id := sid, confirmation_code := cc, timestamp := now, user_id := uid }
    let msg := sseMessage ev
    let m' := broadcast_payment_status m now uid ps pm pintent sid cc fails
    (∀ c ∈ conns, fails c.cid = false →
        ∃ l, lookupR m'.connections uid = some l ∧ sendStep msg now c ∈ l) ∧
    (∀ c ∈ conns, fails c.cid = true →
        ∀ l, lookupR m'.connections uid = some l → c.cid ∉ l.map Conn.cid) ∧
    (∀ uid', uid' ≠ uid → lookupR m'.connections uid' = lookupR m.connections uid') := by
  intro ev msg m'
  obtain ⟨hmain, _, hother, _⟩ :=
    broadcast_spec m now uid ps pm pintent sid cc fails conns h hne hnd
  refine ⟨?_, ?_, hother⟩
  · intro c hc hok
    have hcs : c ∈ conns.filter (fun c => !(fails c.cid)) :=
      List.mem_filter.mpr ⟨hc, by simp [hok]⟩
    have hmem : sendStep msg now c ∈
        (conns.filter (fun c => !(fails c.cid))).map (sendStep msg now) :=
      List.mem_map_of_mem _ hcs
    have hsne : (conns.filter (fun c => !(fails c.cid))).map (sendStep msg now) ≠ [] := by
      intro hnil
      rw [hnil] at hmem
      exact List.not_mem_nil _ hmem
    refine ⟨_, ?_, hmem⟩
    rw [hmain, if_neg hsne]
  · intro c hc hbad l hl
    rw [hmain] at hl
    by_cases hsne : (conns.filter (fun c => !(fails c.cid))).map (sendStep msg now) = []
    · rw [if_pos hsne] at hl
      exact absurd hl (by simp)
    · rw [if_neg hsne] at hl
      have hleq : l = (conns.filter (fun c => !(fails c.cid))).map (sendStep msg now) :=
        (Option.some.inj hl).symm

      intro hcid
      rw [hleq] at hcid
      rw [List.map_map] at hcid
      have hcid' : c.cid ∈ (conns.filter (fun c => !(fails c.cid))).map Conn.cid := by
        have : (Conn.cid ∘ sendStep msg now) = Conn.cid := rfl
        rw [this] at hcid
        exact hcid
      obtain ⟨y, hy, hycid⟩ := List.mem_map.mp hcid'
      have hyconns : y ∈ conns := List.mem_of_mem_filter hy
      have hykeep : (!(fails y.cid)) = true := (List.mem_filter.mp hy).2
      have hyc : y = c :=
        List.inj_on_of_nodup_map hnd hyconns hc hycid
      rw [hyc] at hykeep
      rw [hbad] at hykeep
      simp at hykeep

theorem broadcast_payment_status_failure_isolation_witness :
    ∃ l, lookupR ((broadcast_payment_status managerA 1000 42 "paid" "stripe" "pi_123" none
        (some confirmationA) (fun _ => false)).connections) 42 = some l ∧
      sendStep (sseMessage eventA) 1000 connA ∈ l :=
  (broadcast_payment_status_failure_isolation managerA 1000 42 "paid" "stripe" "pi_123" none
      (some confirmationA) (fun _ => false) [connA] rfl (by decide) (by decide)).1
    connA (List.mem_cons_self connA []) rfl

/-! ## Claim C3: the no-empty-list registry invariant -/

/-- A subscriber key is present iff it maps to a nonempty Session list;
the nontrivial half is that no key ever maps to `[]`. -/
def RegistryWF (r : Registry) : Prop := ∀ p ∈ r, p.2 ≠ []

instance (r : Registry) : Decidable (RegistryWF r) := by
  unfold RegistryWF
  infer_instance

theorem foldl_preserves {α : Type} {P : Registry → Prop} (f : Registry → α → Registry)
    (hf : ∀ r x, P r → P (f r x)) :
    ∀ (l : List α) (r : Registry), P r → P (l.foldl f r) := by
  intro l
  induction l with
  | nil => intro r hr; exact hr
  | cons x rest ih =>
    intro r hr
    rw [List.foldl_cons]
    exact ih _ (hf r x hr)

theorem RegistryWF_setR {r : Registry} {uid : Nat} {v : List Conn}
    (hr : RegistryWF r) (hv : v ≠ []) : RegistryWF (setR r uid v) := by
  intro p hp
  obtain ⟨q, hq, hfq⟩ := List.mem_map.mp hp
  by_cases hq1 : q.1 = uid
  · rw [if_pos hq1] at hfq
    rw [← hfq]
    exact hv
  · rw [if_neg hq1] at hfq
    exact hfq ▸ hr q hq

theorem RegistryWF_eraseR {r : Registry} {uid : Nat} (hr : RegistryWF r) :
    RegistryWF (eraseR r uid) := by
  intro p hp
  exact hr p (List.mem_of_mem_filter hp)

theorem RegistryWF_remove_connection {r : Registry} (uid cid : Nat)
    (hr : RegistryWF r) : RegistryWF (remove_connection r uid cid) := by
  unfold remove_connection
  cases h : lookupR r uid with
  | none => exact hr
  | some conns =>
    by_cases hmem : cid ∈ conns.map Conn.cid
    · simp only [hmem, if_true]
      by_cases hemp : removeFirstCid conns cid = []
      · simp only [hemp, if_pos rfl]
        exact RegistryWF_eraseR hr
      · simp only [if_neg hemp]
        exact RegistryWF_setR hr hemp
    · simp only [hmem, if_false]
      exact hr

theorem RegistryWF_addConn {m : Manager} (uid now cid : Nat)
    (hr : RegistryWF m.connections) :
    RegistryWF (add_connection m uid now cid).connections := by
  unfold add_connection
  cases h : lookupR m.connections uid with
  | none =>
    intro p hp
    rcases List.mem_append.mp hp with hin | hin
    · exact hr p hin
    · rcases List.mem_singleton.mp hin with rfl
      simp
  | some conns =>
    exact RegistryWF_setR hr (by simp)

theorem RegistryWF_sweepUser {uid now : Nat} (r : Registry) (hr : RegistryWF r) :
    RegistryWF (sweepUser r uid now) := by
  cases h : lookupR r uid with
  | none =>
    have heq : sweepUser r uid now = r := by
      unfold sweepUser
      rw [h]
    rw [heq]
    exact hr
  | some conns =>
    have heq : sweepUser r uid now =
        (conns.filter (fun c => decide (stale_threshold < now - c.last_activity))).foldl
          (fun acc c => remove_connection acc uid c.cid) r := by
      unfold sweepUser
      rw [h]
    rw [heq]
    exact foldl_preserves (fun r' (c : Conn) => remove_connection r' uid c.cid)
      (fun r' c hr' => RegistryWF_remove_connection uid c.cid hr') _ _ hr

/-- C3. The no-empty-list invariant is preserved by every registry
operation — `add_connection`, the inline registration of
`create_event_generator`, `remove_connection`, `broadcast_payment_status`
and a full reaper cycle — and a broadcast to a subscriber with no
registered Sessions returns the manager unchanged (silent no-op). -/
theorem registry_invariant_preserved :
    (∀ (m : Manager) (uid now cid : Nat), RegistryWF m.connections →
      RegistryWF (add_connection m uid now cid).connections) ∧
    (∀ (m : Manager) (uid now cid : Nat), RegistryWF m.connections →
      RegistryWF (create_event_generator_register m uid now cid).connections) ∧
    (∀ (r : Registry) (uid cid : Nat), RegistryWF r →
      RegistryWF (remove_connection r uid cid)) ∧
    (∀ (m : Manager) (now uid : Nat) (ps pm pintent : String) (sid cc : Option String)
      (fails : Nat → Bool), RegistryWF m.connections →
      RegistryWF (broadcast_payment_status m now uid ps pm pintent sid cc fails).connections) ∧
    (∀ (m : Manager) (now : Nat), RegistryWF m.connections →
      RegistryWF (sweepCycle m now).connections) ∧
    (∀ (m : Manager) (now uid : Nat) (ps pm pintent : String) (sid cc : Option String)
      (fails : Nat → Bool), lookupR m.connections uid = none →
      broadcast_payment_status m now uid ps pm pintent sid cc fails = m) := by
  refine ⟨?_, ?_, ?_, ?_, ?_, ?_⟩
  · intro m uid now cid hr
    exact RegistryWF_addConn uid now cid hr
  · intro m uid now cid hr
    have heq : create_event_generator_register m uid now cid = add_connection m uid now cid := rfl
    rw [heq]
    exact RegistryWF_addConn uid now cid hr
  · intro r uid cid hr
    exact RegistryWF_remove_connection uid cid hr
  · intro m now uid ps pm pintent sid cc fails hr
    cases h : lookupR m.connections uid with
    | none =>
      have heq : broadcast_payment_status m now uid ps pm pintent sid cc fails = m := by
        unfold broadcast_payment_status
        rw [h]
      rw [heq]
      exact hr
    | some conns =>
      have hconns : conns ≠ [] := hr (uid, conns) (lookupR_mem h)
      obtain ⟨msg, heq⟩ : ∃ msg,
          (broadcast_payment_status m now uid ps pm pintent sid cc fails).connections =
          (conns.filter (fun c => fails c.cid)).foldl
            (fun acc c => remove_connection acc uid c.cid)
            (setR m.connections uid (conns.map (fun c => if fails c.cid then c
              else sendStep msg now c))) := by
        refine ⟨sseMessage { payment_status := ps, payment_method := pm, payment_intent_id := pintent, subscription_id := sid, confirmation_code := cc, timestamp := now, user_id := uid }, ?_⟩
        unfold broadcast_payment_status
        rw [h]
      rw [heq]
      refine foldl_preserves (fun r' (c : Conn) => remove_connection r' uid c.cid)
        (fun r' c hr' => RegistryWF_remove_connection uid c.cid hr') _ _ ?_
      refine RegistryWF_setR hr ?_
      intro hc
      exact hconns (List.map_eq_nil_iff.mp hc)
  · intro m now hr
    unfold sweepCycle
    have hr' : RegistryWF ((m.connections.map (fun p => p.1)).foldl
        (fun acc uid => sweepUser acc uid now) m.connections) :=
      foldl_preserves _ (fun r' uid hx => RegistryWF_sweepUser r' hx) _ _ hr
    by_cases hemp : (m.connections.map (fun p => p.1)).foldl
        (fun acc uid => sweepUser acc uid now) m.connections = []
    · simp only [hemp, if_pos rfl]
      intro p hp
      exact absurd hp (List.not_mem_nil p)
    · simp only [if_neg hemp]
      exact hr'
  · intro m now uid ps pm pintent sid cc fails h
    unfold broadcast_payment_status
    rw [h]

theorem registry_invariant_preserved_witness :
    RegistryWF ((add_connection managerA 7 10 1).connections) ∧
    broadcast_payment_status managerA 1000 99 "paid" "stripe" "pi_999" none none
      (fun _ => false) = managerA :=
  ⟨registry_invariant_preserved.1 managerA 7 10 1 (by decide),
   registry_invariant_preserved.2.2.2.2.2 managerA 1000 99 "paid" "stripe" "pi_999" none none
     (fun _ => false) rfl⟩

/-! ## Claim C7: remove_connection is idempotent -/

/-- C7. When connection identities are unique (each Session object is
appended once), removing a Session twice equals removing it once; and
removing a Session whose subscriber key is absent, or which is absent
from its subscriber's list, leaves the registry unchanged and raises
no error. -/
theorem remove_connection_idempotent (r : Registry) (uid cid : Nat)
    (h : (((lookupR r uid).getD []).map Conn.cid).count cid ≤ 1) :
    remove_connection (remove_connection r uid cid) uid cid = remove_connection r uid cid ∧
    (lookupR r uid = none → remove_connection r uid cid = r) ∧
    (∀ l, lookupR r uid = some l → cid ∉ l.map Conn.cid →
      remove_connection r uid cid = r) := by
  refine ⟨?_, fun hnone => remove_connection_lookup_none cid hnone, ?_⟩
  · cases hl : lookupR r uid with
    | none =>
      rw [remove_connection_lookup_none cid hl, remove_connection_lookup_none cid hl]
    | some l =>
      rw [hl] at h
      simp only [Option.getD_some] at h
      by_cases hmem : cid ∈ l.map Conn.cid
      · by_cases hemp : removeFirstCid l cid = []
        · have hrw : remove_connection r uid cid = eraseR r uid := by
            unfold remove_connection
            rw [hl]
            simp [hmem, hemp]
          rw [hrw, remove_connection_lookup_none cid (lookupR_eraseR_self r uid)]
        · have hrw : remove_connection r uid cid = setR r uid (removeFirstCid l cid) := by
            unfold remove_connection
            rw [hl]
            simp [hmem, hemp]
          have hnm : cid ∉ (removeFirstCid l cid).map Conn.cid :=
            not_mem_removeFirstCid_of_count_le_one h
          rw [hrw]
          unfold remove_connection
          rw [lookupR_setR_self hl]
          simp [hnm]
      · have hrw : remove_connection r uid cid = r := by
          unfold remove_connection
          rw [hl]
          simp [hmem]
        rw [hrw, hrw]
  · intro l hl hmem
    unfold remove_connection
    rw [hl]
    simp [hmem]

theorem remove_connection_idempotent_witness :
    remove_connection (remove_connection [(42, [connA])] 42 0) 42 0 =
      remove_connection [(42, [connA])] 42 0 :=
  (remove_connection_idempotent [(42, [connA])] 42 0 (by decide)).1

/-! ## Claim C6: unregistration on every generator exit path -/

theorem generator_finally_not_registered (m : Manager) (uid cid : Nat)
    (h : (((lookupR m.connections uid).getD []).map Conn.cid).count cid ≤ 1) :
    cid ∉ ((lookupR (generator_finally m uid cid).connections uid).getD []).map Conn.cid := by
  cases hl : lookupR m.connections uid with
  | none =>
    have hrw : generator_finally m uid cid = m := by
      unfold generator_finally
      rw [hl]
    rw [hrw, hl]
    simp
  | some l =>
    rw [hl] at h
    simp only [Option.getD_some] at h
    have hrw : (generator_finally m uid cid).connections =
        remove_connection m.connections uid cid := by
      unfold generator_finally
      rw [hl]
    rw [hrw]
    by_cases hmem : cid ∈ l.map Conn.cid
    · by_cases hemp : removeFirstCid l cid = []
      · have hrc : remove_connection m.connections uid cid = eraseR m.connections uid := by
          unfold remove_connection
          rw [hl]
          simp [hmem, hemp]
        rw [hrc, lookupR_eraseR_self]
        simp
      · have hrc : remove_connection m.connections uid cid =
            setR m.connections uid (removeFirstCid l cid) := by
          unfold remove_connection
          rw [hl]
          simp [hmem, hemp]
        rw [hrc, lookupR_setR_self hl]
        simp only [Option.getD_some]
        exact not_mem_removeFirstCid_of_count_le_one h
    · have hrc : remove_connection m.connections uid cid = m.connections := by
        unfold remove_connection
        rw [hl]
        simp [hmem]
      rw [hrc, hl]
      simp only [Option.getD_some]
      exact hmem

/-- C6. The `finally` block runs on all three exit paths of the
generator (normal close, `CancelledError`, any other exception), and
after it the Session's connection no longer appears in the subscriber's
registry entry. -/
theorem generator_exit_always_unregisters (m : Manager) (uid cid : Nat) (e : ExitPath)
    (h : (((lookupR m.connections uid).getD []).map Conn.cid).count cid ≤ 1) :
    generator_exit m uid cid e = generator_finally m uid cid ∧
    cid ∉ ((lookupR (generator_exit m uid cid e).connections uid).getD []).map Conn.cid := by
  have hrw : generator_exit m uid cid e = generator_finally m uid cid := by
    cases e <;> rfl
  rw [hrw]
  exact ⟨rfl, generator_finally_not_registered m uid cid h⟩

theorem generator_exit_always_unregisters_witness :
    generator_exit managerA 42 0 ExitPath.cancelled = generator_finally managerA 42 0 ∧
    0 ∉ ((lookupR (generator_exit managerA 42 0 ExitPath.cancelled).connections 42).getD
      []).map Conn.cid :=
  generator_exit_always_unregisters managerA 42 0 ExitPath.cancelled (by decide)

/-! ## Claim C4: shape of the Session's output stream -/

theorem genRun_inv :
    ∀ (inputs : List GenInput) (q out : List String),
    (∀ msg ∈ enqueuedMsgs inputs, msg ≠ pingMsg) →
    (∀ msg ∈ q, msg ≠ pingMsg) →
    ∃ Δ, (inputs.foldl genStep { queue := q, out := out }).out = out ++ Δ ∧
      Δ.filter (fun y => y ≠ pingMsg) ++ (inputs.foldl genStep { queue := q, out := out }).queue
        = q ++ enqueuedMsgs inputs ∧
      (∀ y ∈ Δ, y = pingMsg ∨ y ∈ q ∨ y ∈ enqueuedMsgs inputs) := by
  intro inputs
  induction inputs with
  | nil =>
    intro q out _ _
    refine ⟨[], by simp, by simp [enqueuedMsgs], by simp⟩
  | cons i rest ih =>
    intro q out hp hq
    cases i with
    | enqueue msg =>
      have hE : enqueuedMsgs (GenInput.enqueue msg :: rest) = msg :: enqueuedMsgs rest := rfl
      have hmsg : msg ≠ pingMsg := hp msg (by rw [hE]; exact List.mem_cons_self _ _)
      have hp' : ∀ x ∈ enqueuedMsgs rest, x ≠ pingMsg := fun x hx =>
        hp x (by rw [hE]; exact List.mem_cons_of_mem _ hx)
      have hq' : ∀ x ∈ q ++ [msg], x ≠ pingMsg := by
        intro x hx
        rcases List.mem_append.mp hx with hx | hx
        · exact hq x hx
        · rcases List.mem_singleton.mp hx with rfl
          exact hmsg
      have hstep : genStep { queue := q, out := out } (GenInput.enqueue msg) =
          { queue := q ++ [msg], out := out } := rfl
      rw [List.foldl_cons, hstep]
      obtain ⟨Δ, hout, hfifo, hmem⟩ := ih (q ++ [msg]) out hp' hq'
      refine ⟨Δ, hout, ?_, ?_⟩
      · rw [hfifo, hE, List.append_assoc]
        rfl
      · intro y hy
        rcases hmem y hy with h1 | h2 | h3
        · exact Or.inl h1
        · rcases List.mem_append.mp h2 with h2a | h2b
          · exact Or.inr (Or.inl h2a)
          · rcases List.mem_singleton.mp h2b with rfl
            exact Or.inr (Or.inr (by rw [hE]; exact List.mem_cons_self _ _))
        · exact Or.inr (Or.inr (by rw [hE]; exact List.mem_cons_of_mem _ h3))
    | consume =>
      have hE : enqueuedMsgs (GenInput.consume :: rest) = enqueuedMsgs rest := rfl
      cases q with
      | nil =>
        have hstep : genStep { queue := ([] : List String), out := out } GenInput.consume =
            { queue := [], out := out } := rfl
        rw [List.foldl_cons, hstep]
        obtain ⟨Δ, hout, hfifo, hmem⟩ := ih [] out hp (by simp)
        exact ⟨Δ, hout, by rw [hfifo, hE], fun y hy => by
          rcases hmem y hy with h1 | h2 | h3
          · exact Or.inl h1
          · exact absurd h2 (List.not_mem_nil y)
          · exact Or.inr (Or.inr (by rw [hE]; exact h3))⟩
      | cons msg q' =>
        have hmsg : msg ≠ pingMsg := hq msg (List.mem_cons_self _ _)
        have hq' : ∀ x ∈ q', x ≠ pingMsg := fun x hx => hq x (List.mem_cons_of_mem _ hx)
        have hstep : genStep { queue := msg :: q', out := out } GenInput.consume =
            { queue := q', out := out ++ [msg] } := rfl
        rw [List.foldl_cons, hstep]
        obtain ⟨Δ, hout, hfifo, hmem⟩ := ih q' (out ++ [msg]) hp hq'
        refine ⟨msg :: Δ, ?_, ?_, ?_⟩
        · rw [hout, List.append_assoc]
          rfl
        · rw [List.filter_cons_of_pos (by simp [hmsg]), List.cons_append, hfifo, hE]
          rfl
        · intro y hy
          rcases List.mem_cons.mp hy with rfl | hy'
          · exact Or.inr (Or.inl (List.mem_cons_self _ _))
          · rcases hmem y hy' with h1 | h2 | h3
            · exact Or.inl h1
            · exact Or.inr (Or.inl (List.mem_cons_of_mem _ h2))
            · exact Or.inr (Or.inr (by rw [hE]; exact h3))
    | timeout =>
      have hE : enqueuedMsgs (GenInput.timeout :: rest) = enqueuedMsgs rest := rfl
      cases q with
      | nil =>
        have hstep : genStep { queue := ([] : List String), out := out } GenInput.timeout =
            { queue := [], out := out ++ [pingMsg] } := rfl
        rw [List.foldl_cons, hstep]
        obtain ⟨Δ, hout, hfifo, hmem⟩ := ih [] (out ++ [pingMsg]) hp (by simp)
        refine ⟨pingMsg :: Δ, ?_, ?_, ?_⟩
        · rw [hout, List.append_assoc]
          rfl
        · rw [List.filter_cons_of_neg (by simp), hfifo, hE]
        · intro y hy
          rcases List.mem_cons.mp hy with rfl | hy'
          · exact Or.inl rfl
          · rcases hmem y hy' with h1 | h2 | h3
            · exact Or.inl h1
            · exact absurd h2 (List.not_mem_nil y)
            · exact Or.inr (Or.inr (by rw [hE]; exact h3))
      | cons msg q' =>
        have hstep : genStep { queue := msg :: q', out := out } GenInput.timeout =
            { queue := msg :: q', out := out } := by
          simp [genStep]
        rw [List.foldl_cons, hstep]
        obtain ⟨Δ, hout, hfifo, hmem⟩ := ih (msg :: q') out hp hq
        exact ⟨Δ, hout, by rw [hfifo, hE], fun y hy => by
          rcases hmem y hy with h1 | h2 | h3
          · exact Or.inl h1
          · exact Or.inr (Or.inl h2)
          · exact Or.inr (Or.inr (by rw [hE]; exact h3))⟩

/-- C4. The Session stream yields the `connected` event first and
exactly once; afterwards every yielded item is either the keepalive
ping (emitted when the 30s timeout fires on an empty queue) or the next
queued message, and the non-ping yields taken in order, followed by the
messages still queued, are exactly the enqueued messages in FIFO
order. -/
theorem create_event_generator_stream_shape (uid t0 : Nat) (inputs : List GenInput)
    (hp : ∀ msg ∈ enqueuedMsgs inputs, msg ≠ pingMsg)
    (hc : ∀ msg ∈ enqueuedMsgs inputs, msg ≠ connectedMsg uid t0)
    (hpc : pingMsg ≠ connectedMsg uid t0) :
    ∃ Δ, (genRun uid t0 inputs).out = connectedMsg uid t0 :: Δ ∧
      connectedMsg uid t0 ∉ Δ ∧
      Δ.filter (fun y => y ≠ pingMsg) ++ (genRun uid t0 inputs).queue = enqueuedMsgs inputs ∧
      (∀ y ∈ Δ, y = pingMsg ∨ y ∈ enqueuedMsgs inputs) := by
  obtain ⟨Δ, hout, hfifo, hmem⟩ := genRun_inv inputs [] [connectedMsg uid t0] hp (by simp)
  have hmem' : ∀ y ∈ Δ, y = pingMsg ∨ y ∈ enqueuedMsgs inputs := by
    intro y hy
    rcases hmem y hy with h1 | h2 | h3
    · exact Or.inl h1
    · exact absurd h2 (List.not_mem_nil y)
    · exact Or.inr h3
  refine ⟨Δ, by simpa using hout, ?_, by simpa using hfifo, hmem'⟩
  intro hcin
  rcases hmem' _ hcin with h1 | h2
  · exact hpc (Eq.symm h1)
  · exact hc _ h2 rfl

/-- A concrete schedule: one keepalive timeout, two broadcasts, two
consumptions. -/
def genInputsW : List GenInput :=
  [GenInput.timeout, GenInput.enqueue ("m1"), GenInput.enqueue ("m2"),
    GenInput.consume, GenInput.consume]

theorem create_event_generator_stream_shape_witness :
    ∃ Δ, (genRun 42 5 genInputsW).out = connectedMsg 42 5 :: Δ ∧
      connectedMsg 42 5 ∉ Δ ∧
      Δ.filter (fun y => y ≠ pingMsg) ++ (genRun 42 5 genInputsW).queue
        = enqueuedMsgs genInputsW ∧
      (∀ y ∈ Δ, y = pingMsg ∨ y ∈ enqueuedMsgs genInputsW) :=
  create_event_generator_stream_shape 42 5 genInputsW
    (by decide) (by decide) (by decide)

/-! ## Claim C5: who resets the activity clock -/

/-- The per-connection fields other than the queue: identity, owner,
creation time and activity clock. -/
def connMeta (c : Conn) : Nat × Nat × Nat × Nat :=
  (c.cid, c.user_id, c.created_at, c.last_activity)

def registryMeta (r : Registry) : List (Nat × List (Nat × Nat × Nat × Nat)) :=
  r.map (fun p => (p.1, p.2.map connMeta))

theorem connMeta_pop (cid : Nat) (rest : List String) (c : Conn) :
    connMeta (if (c.cid == cid) = true then { c with queue := rest } else c) = connMeta c := by
  by_cases hc : (c.cid == cid) = true
  · rw [if_pos hc]
    rfl
  · rw [if_neg hc]

theorem registryMeta_updateConn_queue (r : Registry) (uid cid : Nat) (rest : List String) :
    registryMeta (updateConn r uid cid (fun x => { x with queue := rest })) = registryMeta r := by
  unfold registryMeta updateConn
  rw [List.map_map]
  apply List.map_congr_left
  intro p _
  rw [Function.comp_apply]
  by_cases hp : p.1 = uid
  · rw [if_pos hp]
    show (p.1, ((p.2.map (fun c =>
        if (c.cid == cid) = true then { c with queue := rest } else c)).map connMeta))
      = (p.1, p.2.map connMeta)
    rw [List.map_map]
    refine congrArg (Prod.mk p.1) ?_
    apply List.map_congr_left
    intro c _
    rw [Function.comp_apply]
    exact connMeta_pop cid rest c
  · rw [if_neg hp]

theorem session_loop_iteration_preserves_meta (m : Manager) (uid cid : Nat) :
    registryMeta (session_loop_iteration m uid cid).1.connections =
      registryMeta m.connections ∧
    (session_loop_iteration m uid cid).1.cleanup_task = m.cleanup_task := by
  cases hg : getConn m.connections uid cid with
  | none =>
    have hrw : session_loop_iteration m uid cid = (m, LoopOutcome.ping) := by
      unfold session_loop_iteration
      rw [hg]
    rw [hrw]
    exact ⟨rfl, rfl⟩
  | some c =>
    obtain ⟨ccid, cuserid, cqueue, ccreated, clast⟩ := c
    cases cqueue with
    | nil =>
      have hrw : session_loop_iteration m uid cid = (m, LoopOutcome.ping) := by
        unfold session_loop_iteration
        rw [hg]
      rw [hrw]
      exact ⟨rfl, rfl⟩
    | cons msg rest =>
      have hrw : session_loop_iteration m uid cid =
          ({ m with connections :=
              updateConn m.connections uid cid (fun x => { x with queue := rest }) },
           LoopOutcome.yielded msg) := by
        unfold session_loop_iteration
        rw [hg]
      rw [hrw]
      exact ⟨registryMeta_updateConn_queue m.connections uid cid rest, rfl⟩

/-- C5 counterexample. A keepalive iteration: the queue is empty, the
loop yields a ping — and the manager state is bit-for-bit unchanged, so
`last_activity` stays at its old value 5 instead of being updated to
the current wall-clock time (e.g. 200): the generator loop reads no
clock and writes no connection field. -/
theorem ping_leaves_last_activity_unchanged :
    (session_loop_iteration managerA 42 0).2 = LoopOutcome.ping ∧
    (session_loop_iteration managerA 42 0).1 = managerA ∧
    ((lookupR (session_loop_iteration managerA 42 0).1.connections 42).getD []).map
      Conn.last_activity = [5] ∧
    (5 : Nat) ≠ 200 := by
  decide

/-- C5 (amended). The Session loop itself never updates
`last_activity`: both the queued-item branch and the ping branch leave
every connection's non-queue fields (including the activity clock)
unchanged. The clock is reset only by the broadcast path, which stamps
`last_activity := now` on each connection it successfully enqueues
to. -/
theorem activity_clock_only_reset_by_broadcast :
    (∀ (m : Manager) (uid cid : Nat),
      registryMeta (session_loop_iteration m uid cid).1.connections =
        registryMeta m.connections) ∧
    (∀ (m : Manager) (now uid : Nat) (ps pm pintent : String) (sid cc : Option String)
      (conns : List Conn), lookupR m.connections uid = some conns →
      lookupR (broadcast_payment_status m now uid ps pm pintent sid cc
          (fun _ => false)).connections uid
        = some (conns.map (fun c => { c with
            queue := c.queue ++ [sseMessage { payment_status := ps, payment_method := pm, payment_intent_id := pintent, subscription_id := sid, confirmation_code := cc, timestamp := now, user_id := uid }],
            last_activity := now }))) := by
  constructor
  · intro m uid cid
    exact (session_loop_iteration_preserves_meta m uid cid).1
  · intro m now uid ps pm pintent sid cc conns h
    have hconn : (broadcast_payment_status m now uid ps pm pintent sid cc
        (fun _ => false)).connections =
        setR m.connections uid (conns.map (sendStep (sseMessage { payment_status := ps, payment_method := pm, payment_intent_id := pintent, subscription_id := sid, confirmation_code := cc, timestamp := now, user_id := uid }) now)) := by
      unfold broadcast_payment_status
      rw [h]
      simp
    rw [hconn]
    exact lookupR_setR_self h _

theorem activity_clock_only_reset_by_broadcast_witness :
    registryMeta (session_loop_iteration managerA 42 0).1.connections =
      registryMeta managerA.connections ∧
    lookupR ((broadcast_payment_status managerA 1000 42 "paid" "stripe" "pi_123" none
        (some confirmationA) (fun _ => false)).connections) 42
      = some ([connA].map (fun c =>
          { c with queue := c.queue ++ [sseMessage eventA], last_activity := 1000 })) :=
  ⟨activity_clock_only_reset_by_broadcast.1 managerA 42 0,
   activity_clock_only_reset_by_broadcast.2 managerA 1000 42 "paid" "stripe" "pi_123" none
     (some confirmationA) [connA] rfl⟩

/-! ## Claim C8: the reaper never restarts after its loop exits -/

theorem register_cleanup_task (m : Manager) (uid now cid : Nat) :
    (create_event_generator_register m uid now cid).cleanup_task =
      if m.cleanup_task = none then some true else m.cleanup_task := rfl

theorem register_preserves_entry {m : Manager} {uid : Nat} {l : List Conn}
    (h : lookupR m.connections uid = some l) (uid' now cid : Nat) :
    ∃ l2, lookupR (create_event_generator_register m uid' now cid).connections uid = some l2 ∧
      ∀ c ∈ l, c ∈ l2 := by
  have hc : (create_event_generator_register m uid' now cid).connections =
      (match lookupR m.connections uid' with
       | none => m.connections ++
           [(uid', [{ cid := cid, user_id := uid', queue := [], created_at := now,
                      last_activity := now }])]
       | some conns => setR m.connections uid'
           (conns ++ [{ cid := cid, user_id := uid', queue := [], created_at := now,
                        last_activity := now }])) := rfl
  cases hl' : lookupR m.connections uid' with
  | none =>
    rw [hl'] at hc
    rw [hc, lookupR_append_left h]
    exact ⟨l, rfl, fun c hcm => hcm⟩
  | some conns =>
    rw [hl'] at hc
    by_cases huid : uid = uid'
    · subst huid
      have hlc : l = conns := Option.some.inj (h.symm.trans hl')
      rw [hc, lookupR_setR_self hl']
      exact ⟨conns ++ [_], rfl, fun c hcm => List.mem_append_left _ (hlc ▸ hcm)⟩
    · rw [hc, lookupR_setR_ne huid, h]
      exact ⟨l, rfl, fun c hcm => hcm⟩

/-- C8. Once the reaper's loop has exited (`break` after the registry
became empty), `cleanup_task` is a finished task, never reset to
`None`: (a) a cycle that leaves the registry empty marks the task
finished; (b) a later registration does not restart it (the
`cleanup_task is None` test fails); (c) from then on, for any sequence
of registrations and attempted sweeps — at arbitrarily late times, so
for arbitrarily stale sessions — no sweep runs, and every registered
connection (however stale) stays registered. -/
theorem reaper_never_restarts_after_exit :
    (∀ (m : Manager) (now : Nat), m.cleanup_task = some true →
      (sweepCycle m now).connections = [] →
      (sweepCycle m now).cleanup_task = some false) ∧
    (∀ (m : Manager) (uid now cid : Nat), m.cleanup_task = some false →
      (create_event_generator_register m uid now cid).cleanup_task = some false) ∧
    (∀ (steps : List MStep) (m : Manager) (uid : Nat) (c : Conn) (l : List Conn),
      m.cleanup_task = some false →
      lookupR m.connections uid = some l → c ∈ l →
      (applySteps m steps).cleanup_task = some false ∧
      ∃ l2, lookupR (applySteps m steps).connections uid = some l2 ∧ c ∈ l2) := by
  refine ⟨?_, ?_, ?_⟩
  · intro m now htask hconn
    have hdef : sweepCycle m now = (if (m.connections.map (fun p => p.1)).foldl (fun acc uid => sweepUser acc uid now) m.connections = [] then { connections := (m.connections.map (fun p => p.1)).foldl (fun acc uid => sweepUser acc uid now) m.connections, cleanup_task := some false } else { m with connections := (m.connections.map (fun p => p.1)).foldl (fun acc uid => sweepUser acc uid now) m.connections }) := rfl
    rw [hdef] at hconn ⊢
    by_cases hemp : (m.connections.map (fun p => p.1)).foldl
        (fun acc uid => sweepUser acc uid now) m.connections = []
    · rw [if_pos hemp]
    · rw [if_neg hemp] at hconn
      exact absurd hconn hemp
  · intro m uid now cid hm
    rw [register_cleanup_task, hm]
    simp
  · intro steps
    induction steps with
    | nil =>
      intro m uid c l hm h hc
      exact ⟨hm, l, h, hc⟩
    | cons s rest ih =>
      intro m uid c l hm h hc
      have hfold : applySteps m (s :: rest) = applySteps (applyMStep m s) rest := by
        unfold applySteps
        rw [List.foldl_cons]
      rw [hfold]
      cases s with
      | register uid' now' cid' =>
        have hm' : (applyMStep m (MStep.register uid' now' cid')).cleanup_task = some false := by
          show (create_event_generator_register m uid' now' cid').cleanup_task = some false
          rw [register_cleanup_task, hm]
          simp
        obtain ⟨l2, hl2, hsub⟩ := register_preserves_entry h uid' now' cid'
        exact ih _ uid c l2 hm' hl2 (hsub c hc)
      | sweep now' =>
        have hstep : applyMStep m (MStep.sweep now') = m := by
          show (if m.cleanup_task = some true then sweepCycle m now' else m) = m
          rw [hm]
          simp
        rw [hstep]
        exact ih m uid c l hm h hc

/-- A single stale connection whose eviction empties the registry. -/
def connStale : Conn :=
  { cid := 3, user_id := 7, queue := [], created_at := 0, last_activity := 0 }

def managerStale : Manager :=
  { connections := [(7, [connStale])], cleanup_task := some true }

/-- The manager after the reaper's loop has exited. -/
def managerExited : Manager :=
  { connections := [(42, [connA])], cleanup_task := some false }

theorem reaper_never_restarts_after_exit_witness :
    (sweepCycle managerStale 1000).cleanup_task = some false ∧
    ((applySteps managerExited
        [MStep.sweep 100000, MStep.register 7 5 9, MStep.sweep 200000]).cleanup_task
      = some false ∧
    ∃ l2, lookupR (applySteps managerExited
        [MStep.sweep 100000, MStep.register 7 5 9, MStep.sweep 200000]).connections 42
      = some l2 ∧ connA ∈ l2) :=
  ⟨reaper_never_restarts_after_exit.1 managerStale 1000 rfl (by decide),
   reaper_never_restarts_after_exit.2.2
     [MStep.sweep 100000, MStep.register 7 5 9, MStep.sweep 200000]
     managerExited 42 connA [connA] rfl rfl (List.mem_cons_self connA [])⟩

/-! ## Claim C9: authentication precedes Session creation -/

/-- C9. Whenever token validation fails — expired token, invalid token,
missing subject, unknown user, or inactive user — the stream endpoint
returns exactly that HTTP error (status 401 or 400) and the manager
state, including the registry and the connection counts, is the state
it had before the request: no Session is registered. -/
theorem auth_failure_rejects_before_registration
    (decode : String → DecodeResult) (get_user : String → Option UserRec)
    (token : String) (m : Manager) (now cid : Nat) (e : HTTPError)
    (h : get_current_active_user_from_token decode get_user token = .error e) :
    payment_status_stream decode get_user token m now cid = (m, .error e) ∧
    (e.status_code = 401 ∨ e.status_code = 400) ∧
    get_connection_count (payment_status_stream decode get_user token m now cid).1 none
      = get_connection_count m none := by
  have hstream : payment_status_stream decode get_user token m now cid = (m, .error e) := by
    unfold payment_status_stream
    rw [h]
  refine ⟨hstream, ?_, by rw [hstream]⟩
  unfold get_current_active_user_from_token at h
  cases hd : decode token with
  | expired =>
    rw [hd] at h
    injection h with he
    rw [← he]
    left
    rfl
  | invalid =>
    rw [hd] at h
    injection h with he
    rw [← he]
    left
    rfl
  | payload sub =>
    rw [hd] at h
    cases sub with
    | none =>
      injection h with he
      rw [← he]
      left
      rfl
    | some username =>
      have h2 : (match get_user username with
          | none => Except.error credentials_exception
          | some user =>
            if user.is_active = true then Except.ok user
            else Except.error { status_code := 400, detail := "Inactive user" })
          = Except.error e := h
      cases hu : get_user username with
      | none =>
        rw [hu] at h2
        injection h2 with he
        rw [← he]
        left
        rfl
      | some user =>
        rw [hu] at h2
        have h3 : (if user.is_active = true then (Except.ok user : Except HTTPError UserRec)
            else Except.error { status_code := 400, detail := "Inactive user" })
            = Except.error e := h2
        by_cases hact : user.is_active
        · rw [if_pos hact] at h3
          exact absurd h3 (by simp)
        · rw [if_neg hact] at h3
          injection h3 with he
          rw [← he]
          right
          rfl

theorem auth_failure_rejects_before_registration_witness :
    payment_status_stream (fun _ => DecodeResult.expired) (fun _ => none) "tok" managerA 0 0
      = (managerA, Except.error { status_code := 401, detail := "Token expired" }) ∧
    (({ status_code := 401, detail := "Token expired" } : HTTPError).status_code = 401 ∨
     ({ status_code := 401, detail := "Token expired" } : HTTPError).status_code = 400) ∧
    get_connection_count (payment_status_stream (fun _ => DecodeResult.expired)
        (fun _ => none) "tok" managerA 0 0).1 none
      = get_connection_count managerA none :=
  auth_failure_rejects_before_registration (fun _ => DecodeResult.expired) (fun _ => none)
    "tok" managerA 0 0 { status_code := 401, detail := "Token expired" } rfl

/-! ## Claim C10: get_connection_count with user_id 0 -/

/-- A registry with one Session for subscriber 0 and one for
subscriber 1: `get_connection_count(0)` answers 2 (the total), not 1
(subscriber 0's own count), because `if user_id:` treats 0 as falsy. -/
def managerZero : Manager :=
  { connections :=
      [(0, [{ cid := 10, user_id := 0, queue := [], created_at := 0, last_activity := 0 }]),
       (1, [{ cid := 11, user_id := 1, queue := [], created_at := 0, last_activity := 0 }])],
    cleanup_task := none }

/-- C10. `get_connection_count` with `user_id = 0` returns the total
number of open Sessions across all subscribers (same as `None`), not
subscriber 0's per-subscriber count; only a nonzero user_id selects the
per-subscriber count. On `managerZero` this makes the answer for
subscriber 0 equal 2 although subscriber 0 has exactly 1 Session. -/
theorem get_connection_count_zero_is_total (m : Manager) :
    get_connection_count m (some 0) = totalConnections m ∧
    get_connection_count m none = totalConnections m ∧
    (∀ uid, uid ≠ 0 →
      get_connection_count m (some uid) = ((lookupR m.connections uid).getD []).length) ∧
    get_connection_count managerZero (some 0) = 2 ∧
    ((lookupR managerZero.connections 0).getD []).length = 1 := by
  refine ⟨rfl, rfl, ?_, rfl, rfl⟩
  intro uid h
  show (if uid = 0 then totalConnections m
        else ((lookupR m.connections uid).getD []).length) = _
  rw [if_neg h]

theorem get_connection_count_zero_is_total_witness :
    get_connection_count managerA (some 42) = ((lookupR managerA.connections 42).getD []).length :=
  (get_connection_count_zero_is_total managerA).2.2.1 42 (by decide)

end GrowApp
